import Mathlib

/-!
# Bench: route response monitoring and host metrics

A shallow embedding of

* `src/lib/modules/response/resp_delay.go` (package `response`): the per-route
  collection cycle `HandleResponseDelayForRoute`, `RouteDispatcher` and
  `getNormalizedBlockString`;
* `src/metrics/system/system.go` (package `system`): the memory and disk samplers
  and `Encode`.

Conventions.

* Go `int`, `int64` are 64-bit two's complement; they are embedded as `Int`, with the
  wrap-around of a conversion or subtraction written out (`wrapInt64`) where it can occur.
  `uint64` values are embedded as `Nat`.
* Go strings are embedded as Lean strings (sequences of Unicode scalar values).
* `float64` values are kept abstract (a type parameter `F`), and so is their `%f` rendering.
* The package `tsdb` (chains, blocks), `filters.RouteDestroyer`, the HTTP client and the
  operating-system readers are not part of the two files; they are parameters.
* Channels carry exactly the values sent on them; a goroutine that sends one value and a
  receiver that takes one value are embedded as the list of values sent.
* A Go panic is embedded as `Except.error`.
-/

namespace Bench

/-! ## Package `response` -/

namespace response

/-- The constant `PathReqResDelay` (resp_delay.go, line 18). -/
def PathReqResDelay : String := "storage/req-res-delay-monitoring"

/-- The constant `math.MaxInt32`, `1<<31 - 1`. -/
def MaxInt32 : Int := 2 ^ 31 - 1

/-- The struct `Response` (resp_delay.go, lines 24-28). -/
structure Response where
  Delay : Int
  ResLength : Int
  ResStatusCode : Int
  deriving DecidableEq, Repr

/-- The struct `parser.Routes`, with the two fields the module reads. -/
structure Routes where
  Method : String
  URL : String
  deriving DecidableEq, Repr

/-- The three per-route series kept by the module. -/
inductive Metric
  | delay
  | length
  | status
  deriving DecidableEq, Repr

/-- The word that names a metric inside a storage path. -/
def Metric.word : Metric → String
  | .delay => "delay"
  | .length => "length"
  | .status => "status"

/-- The variable `pathDelay` (line 36), as a function of `routeSuffix`. -/
def pathDelay (routeSuffix : String) : String :=
  PathReqResDelay ++ "/" ++ "chunk_req_res_" ++ routeSuffix ++ "_delay.json"

/-- The variable `pathLength` (line 37), as a function of `routeSuffix`. -/
def pathLength (routeSuffix : String) : String :=
  PathReqResDelay ++ "/" ++ "chunk_req_res_" ++ routeSuffix ++ "_length.json"

/-- The variable `pathStatusCode` (line 38), as a function of `routeSuffix`. -/
def pathStatusCode (routeSuffix : String) : String :=
  PathReqResDelay ++ "/" ++ "chunk_req_res_" ++ routeSuffix ++ "_status.json"

/-- The storage path the handler builds for a sanitized route id and a metric. -/
def storagePath (routeSuffix : String) : Metric → String
  | .delay => pathDelay routeSuffix
  | .length => pathLength routeSuffix
  | .status => pathStatusCode routeSuffix

/-- Go's conversion `string(i)` of an integer `i`: the UTF-8 text of the code point `i`,
and `"�"` when `i` is not a valid code point (negative, a surrogate, or above
`0x10FFFF`). -/
def goStringOfInt (i : Int) : String :=
  if 0 ≤ i ∧ (i < 0xD800 ∨ (0xDFFF < i ∧ i < 0x110000)) then
    String.singleton (Char.ofNat i.toNat)
  else
    "�"

/-- The function `getNormalizedBlockString` (lines 121-124); `BlockDataSeparator` is the
constant `tsdb.BlockDataSeparator`. -/
def getNormalizedBlockString (BlockDataSeparator : String) (b : Response) : String :=
  goStringOfInt b.Delay ++ BlockDataSeparator ++ goStringOfInt b.ResLength ++ BlockDataSeparator ++
    goStringOfInt b.ResStatusCode

/-- What `RouteDispatcher` did: the values it sent on the channel `c`, in order, and the
URLs it passed to `HandleGetRequest`, in order. -/
structure Dispatch where
  sent : List Response
  getCalls : List String
  deriving DecidableEq, Repr

/-- The function `RouteDispatcher` (lines 93-102). `HandleGetRequest url` is `none` when the
request does not return (the client panics or blocks); nothing is sent then. -/
def RouteDispatcher (HandleGetRequest : String → Option Response) (route : Routes) : Dispatch :=
  if route.Method = "GET" then
    match HandleGetRequest route.URL with
    | some res => { sent := [res], getCalls := [route.URL] }
    | none => { sent := [], getCalls := [route.URL] }
  else
    { sent := [{ Delay := MaxInt32, ResLength := 0, ResStatusCode := 100 }], getCalls := [] }

/-- The parts of package `tsdb`, of `filters` and of the clock that the handler uses.
`C` is `tsdb.Chain`, `B` is `tsdb.Block`. `Save` persists a chain and gives its success
status (the `save() -> Result` of §4.2 of the specification); the handler drops it. `lengthBlock` and `statusBlock` are the two block literals of lines 57-63 and 74-80
as functions of the integer whose `float32` conversion is their `Datapoint` (their
`Timestamp` is the clock reading at that line). -/
structure Env (C B : Type) where
  Path : C → String
  Append : C → B → C
  Save : C → Bool
  GetNewBlock : String → String → B
  BlockDataSeparator : String
  RouteDestroyer : String → String
  HandleGetRequest : String → Option Response
  lengthBlock : Int → B
  statusBlock : Int → B

/-- What happens during a cycle, in order of occurrence: the observation is received, a
loop calls `Save` on the chain at `index` and `Save` returns `ok`, a loop ends, the
wait group is told `Done`. -/
inductive Event (C : Type)
  | received (r : Response)
  | saveCall (m : Metric) (index : Nat) (c : C) (ok : Bool)
  | writeAttempted (m : Metric) (matched : Bool)
  | wgDone
  deriving DecidableEq, Repr

/-- How a cycle can fail to reach its end. -/
inductive Failure
  | noObservation
  | indexOutOfRange (group : Nat)
  | negativeWaitGroupCounter
  deriving DecidableEq, Repr

/-- One of the three loops of the handler (lines 47-53, 64-70, 81-87) over one group: the
first chain whose `Path` is `path` is replaced by `Append` of `block` on it, `Save` is
called on the new chain and its result dropped, and the loop ends (`break`). `index` is
the position of the head of the list in the group. Returns the group after the loop and
the `Save` call made, if any, with the status it returned. -/
def writeLoop {C B : Type} (env : Env C B) (path : String) (block : B) :
    Nat → List C → List C × Option (Nat × C × Bool)
  | _, [] => ([], none)
  | index, c :: rest =>
    if env.Path c = path then
      let c' := env.Append c block
      (c' :: rest, some (index, c', env.Save c'))
    else
      let r := writeLoop env path block (index + 1) rest
      (c :: r.1, r.2)

/-- The events of one loop: the `Save` call if a chain matched, then the end of the
write attempt. -/
def loopEvents {C : Type} (m : Metric) : Option (Nat × C × Bool) → List (Event C)
  | none => [Event.writeAttempted m false]
  | some (i, c, ok) => [Event.saveCall m i c ok, Event.writeAttempted m true]

/-- The method `Done` of `sync.WaitGroup`: the counter goes down by one, and a counter
that would become negative is a panic. -/
def wgDone (wg : Int) : Except Failure Int :=
  if wg - 1 < 0 then Except.error Failure.negativeWaitGroupCounter else Except.ok (wg - 1)

/-- A finished cycle: the chain groups and the completion counter as the handler leaves
them, and the events of the cycle in order. -/
structure Cycle (C : Type) where
  responseChains : List (List C)
  wg : Int
  events : List (Event C)

/-- The function `HandleResponseDelayForRoute` (lines 33-90). `blockDelay` is the
identifier appended at line 49, which the file does not declare; it is a parameter. `wg`
is the counter of the wait group at entry. -/
def HandleResponseDelayForRoute {C B : Type} (env : Env C B) (blockDelay : B)
    (responseChains : List (List C)) (route : Routes) (wg : Int) :
    Except Failure (Cycle C) :=
  let routeSuffix := env.RouteDestroyer route.URL
  let pathDelay := pathDelay routeSuffix
  let pathLength := pathLength routeSuffix
  let pathStatusCode := pathStatusCode routeSuffix
  match (RouteDispatcher env.HandleGetRequest route).sent with
  | [] => Except.error Failure.noObservation
  | responseObject :: _ =>
    let _block := env.GetNewBlock "req-res"
      (getNormalizedBlockString env.BlockDataSeparator responseObject)
    match responseChains[0]? with
    | none => Except.error (Failure.indexOutOfRange 0)
    | some g0 =>
      let w0 := writeLoop env pathDelay blockDelay 0 g0
      let chains1 := responseChains.set 0 w0.1
      let blockLength := env.lengthBlock responseObject.ResLength
      match chains1[1]? with
      | none => Except.error (Failure.indexOutOfRange 1)
      | some g1 =>
        let w1 := writeLoop env pathLength blockLength 0 g1
        let chains2 := chains1.set 1 w1.1
        let blockStatusCode := env.statusBlock responseObject.ResStatusCode
        match chains2[2]? with
        | none => Except.error (Failure.indexOutOfRange 2)
        | some g2 =>
          let w2 := writeLoop env pathStatusCode blockStatusCode 0 g2
          let chains3 := chains2.set 2 w2.1
          let events := [Event.received responseObject] ++ loopEvents Metric.delay w0.2 ++
            loopEvents Metric.length w1.2 ++ loopEvents Metric.status w2.2
          match wgDone wg with
          | Except.error e => Except.error e
          | Except.ok wg' =>
            Except.ok { responseChains := chains3, wg := wg', events := events ++ [Event.wgDone] }

/-- What the caller of the handler has once the call is over. The handler has no result
value, so this is whether it came back or panicked, and, when it came back, the chain
groups it shares with the caller and the counter of the wait group. -/
def callerView {C : Type} (r : Except Failure (Cycle C)) : Except Failure (List (List C) × Int) :=
  match r with
  | Except.error e => Except.error e
  | Except.ok cyc => Except.ok (cyc.responseChains, cyc.wg)

/-- A group after a block was routed to `path`, in the words of the routing rule: every
chain whose `Path` is `path` is replaced by `Append` of the block on it, every other
chain is kept. -/
def routed {C B : Type} (env : Env C B) (path : String) (block : B) (group : List C) : List C :=
  group.map (fun c => if env.Path c = path then env.Append c block else c)

/-- A write attempt on one group, in the words of §4.5 (`resolve`, then `append`, then
`save`). Either no chain of `group` has the path, the group is left as it was and nothing
is saved. Or `c`, at position `i`, is the first chain of `group` with the path: the group
afterwards is `group` with `Append c block` at position `i`, and `Save` was called once,
on that appended chain, with the status `Save` gives on it. `after` is the group once the
attempt is over and `evs` are the events of the attempt, in order. -/
def WriteMade {C B : Type} (env : Env C B) (m : Metric) (path : String) (block : B)
    (group after : List C) (evs : List (Event C)) : Prop :=
  ((∀ c ∈ group, env.Path c ≠ path) ∧ after = group ∧
      evs = [Event.writeAttempted m false]) ∨
    ∃ (i : Nat) (c : C), group[i]? = some c ∧ env.Path c = path ∧
      (∀ (j : Nat) (d : C), j < i → group[j]? = some d → env.Path d ≠ path) ∧
      after = group.set i (env.Append c block) ∧
      evs = [Event.saveCall m i (env.Append c block) (env.Save (env.Append c block)),
        Event.writeAttempted m true]

/-! ### A small registry for concrete runs -/

/-- A chain as the text of §3 has it: a path and the blocks in order. -/
structure DemoChain where
  Path : String
  blocks : List Int
  deriving DecidableEq, Repr

/-- An environment over `DemoChain`: blocks are integers, `Append` puts the block at the
tail, every `Save` returns `saveOk`, the sanitizer keeps the URL, and a GET takes 120 ms
and returns 512 bytes with status 200. -/
def demoEnv (saveOk : Bool) : Env DemoChain Int where
  Path := DemoChain.Path
  Append := fun c b => { c with blocks := c.blocks ++ [b] }
  Save := fun _ => saveOk
  GetNewBlock := fun _ _ => 0
  BlockDataSeparator := "|"
  RouteDestroyer := id
  HandleGetRequest := fun _ => some { Delay := 120, ResLength := 512, ResStatusCode := 200 }
  lengthBlock := id
  statusBlock := id

/-- Three groups for the route `"r"` and one more route `"q"` in the delay group. -/
def demoChains : List (List DemoChain) :=
  [[{ Path := pathDelay "q", blocks := [7] }, { Path := pathDelay "r", blocks := [] }],
   [{ Path := pathLength "r", blocks := [] }],
   [{ Path := pathStatusCode "r", blocks := [] }]]

end response

/-! ## Package `system` -/

namespace system

/-- The struct `MemoryStats` (system.go, lines 62-68); `F` is `float64`. -/
structure MemoryStats (F : Type) where
  Total : Nat
  Available : Nat
  Used : Nat
  UsedPercent : F
  Free : Nat
  deriving DecidableEq, Repr

/-- The fields of gopsutil's `mem.VirtualMemoryStat` that the sampler reads, in bytes. -/
structure VirtualMemoryStat (F : Type) where
  Total : Nat
  Available : Nat
  Used : Nat
  UsedPercent : F
  Free : Nat
  deriving DecidableEq, Repr

/-- The method `GetVirtualMemoryStats` (lines 71-85). `read` is the result of
`gomem.VirtualMemory()`; the result is the value sent on the channel `c`, or the panic. -/
def GetVirtualMemoryStats {F E : Type} (read : Except E (VirtualMemoryStat F)) :
    Except E (MemoryStats F) :=
  match read with
  | Except.error err => Except.error err
  | Except.ok stats =>
    Except.ok
      { Total := stats.Total / 1000000
        Available := stats.Available / 1000000
        Used := stats.Used / 1000000
        UsedPercent := stats.UsedPercent
        Free := stats.Free / 1000000 }

/-- The struct `DiskStats` (lines 88-91). -/
structure DiskStats where
  DiskIO : Int
  Cached : Int
  deriving DecidableEq, Repr

/-- The fields of go-osstat's `memory.Stats` that the sampler reads (`uint64`). -/
structure OsStats where
  Used : Nat
  Cached : Nat
  deriving DecidableEq, Repr

/-- The value of a 64-bit two's complement integer whose bits are those of `n`. -/
def wrapInt64 (n : Int) : Int := (n + 2 ^ 63) % 2 ^ 64 - 2 ^ 63

/-- The method `GetDiskIOStats` (lines 94-112). `before` and `now` are the results of the
two calls of `disk.Get()`; the result is the value sent on the channel `c`, or the panic.
Go's `/` on integers truncates toward zero. -/
def GetDiskIOStats {E : Type} (before now : Except E OsStats) : Except E DiskStats :=
  match before with
  | Except.error err => Except.error err
  | Except.ok before =>
    match now with
    | Except.error err => Except.error err
    | Except.ok now =>
      Except.ok
        { DiskIO := Int.tdiv (wrapInt64 (wrapInt64 now.Used - wrapInt64 before.Used)) 1000
          Cached := wrapInt64 (now.Cached / 1000000 : Nat) }

/-- The verb `%d` of `fmt.Sprintf` on a signed integer: decimal, with `-` in front of a
negative number. -/
def fmtD (i : Int) : String :=
  if i < 0 then "-" ++ Nat.repr i.natAbs else Nat.repr i.natAbs

/-- A value of type `interface{}` as `Encode` receives it: a `DiskStats`, a `MemoryStats`,
a `string`, or a value of any other dynamic type (also `nil`), kept as a tag. -/
inductive Block (F : Type)
  | diskStats (node : DiskStats)
  | memoryStats (node : MemoryStats F)
  | string (node : String)
  | other (tag : String)
  deriving DecidableEq, Repr

/-- The type switch of `Encode` (lines 117-126): the value returned by the case that
matches, or `none` when control falls out of the switch. `fmtF` is the verb `%f`. -/
def encodeSwitch {F : Type} (fmtF : F → String) : Block F → Option String
  | .diskStats node => some (fmtD node.DiskIO ++ "|" ++ fmtD node.Cached)
  | .memoryStats node =>
    some (fmtD node.Total ++ "|" ++ fmtD node.Available ++ "|" ++ fmtD node.Used ++ "|" ++
      fmtF node.UsedPercent ++ "|" ++ fmtD node.Free)
  | .string node => some node
  | .other _ => none

/-- The type assertion `block.(string)` (line 128). -/
def assertString {F : Type} : Block F → Option String
  | .string node => some node
  | _ => none

/-- The statements of `Encode` after the switch (lines 128-133). `fmtV` is the verb `%v`. -/
def encodeFallback {F : Type} (fmtV : Block F → String) (block : Block F) :
    Except String String :=
  match assertString block with
  | none => Except.error ("Invalid block type: " ++ fmtV block)
  | some data => Except.ok data

/-- The method `Encode` (lines 116-134): the returned string, or the panic message. -/
def Encode {F : Type} (fmtF : F → String) (fmtV : Block F → String) (block : Block F) :
    Except String String :=
  match encodeSwitch fmtF block with
  | some s => Except.ok s
  | none => encodeFallback fmtV block

/-! ### Reading a payload back -/

/-- The value of a decimal digit. -/
def digitValue (c : Char) : Option Nat :=
  if 48 ≤ c.toNat ∧ c.toNat ≤ 57 then some (c.toNat - 48) else none

/-- Reads decimal digits from the left, starting from the value `acc`. -/
def readDigits (acc : Nat) : List Char → Option Nat
  | [] => some acc
  | c :: cs =>
    match digitValue c with
    | none => none
    | some d => readDigits (acc * 10 + d) cs

/-- Reads a natural number in decimal: one digit or more, nothing else. -/
def readNat (cs : List Char) : Option Nat :=
  if cs = [] then none else readDigits 0 cs

/-- Reads an integer in decimal, with `-` in front of a negative number. -/
def readInt : List Char → Option Int
  | [] => none
  | c :: rest =>
    if c = '-' then (readNat rest).map fun (n : Nat) => -(n : Int)
    else (readNat (c :: rest)).map fun (n : Nat) => (n : Int)

/-- The fields of a payload: the pieces between the separators `|`. -/
def fields (payload : String) : List (List Char) :=
  List.splitOn '|' payload.data

end system

end Bench

/-! # Theorems -/

namespace Bench

namespace response

/-! ## The write loop and the handler, unfolded -/

theorem routed_of_absent {C B : Type} (env : Env C B) (path : String) (block : B)
    (group : List C) (h : ∀ c ∈ group, env.Path c ≠ path) :
    routed env path block group = group := by
  induction group with
  | nil => rfl
  | cons c rest ih =>
    have hc : env.Path c ≠ path := h c (List.mem_cons_self c rest)
    have hrest : ∀ d ∈ rest, env.Path d ≠ path := fun d hd => h d (List.mem_cons_of_mem c hd)
    have ih' := ih hrest
    simp only [routed] at ih' ⊢
    simp [List.map_cons, hc, ih']

theorem writeLoop_fst {C B : Type} (env : Env C B) (path : String) (block : B)
    (group : List C) (index : Nat) (h : (group.map env.Path).Nodup) :
    (writeLoop env path block index group).1 = routed env path block group := by
  induction group generalizing index with
  | nil => rfl
  | cons c rest ih =>
    rw [List.map_cons, List.nodup_cons] at h
    by_cases hc : env.Path c = path
    · have hrest : ∀ d ∈ rest, env.Path d ≠ path := by
        intro d hd hp
        exact h.1 (List.mem_map.mpr ⟨d, hd, hp.trans hc.symm⟩)
      have hr := routed_of_absent env path block rest hrest
      simp only [routed] at hr ⊢
      simp [writeLoop, hc, hr]
    · have ih' := ih (index + 1) h.2
      simp only [routed] at ih' ⊢
      simp [writeLoop, hc, ih']

theorem writeLoop_snd {C B : Type} (env : Env C B) (m : Metric) (path : String) (block : B)
    (group : List C) (index : Nat) :
    ∃ matched : Bool, (matched = true ↔ ∃ c ∈ group, env.Path c = path) ∧
      Event.writeAttempted m matched ∈ loopEvents m (writeLoop env path block index group).2 ∧
      Event.wgDone ∉ loopEvents m (writeLoop env path block index group).2 := by
  induction group generalizing index with
  | nil => exact ⟨false, by simp, by simp [writeLoop, loopEvents], by simp [writeLoop, loopEvents]⟩
  | cons c rest ih =>
    by_cases hc : env.Path c = path
    · exact ⟨true, by simp [hc], by simp [writeLoop, hc, loopEvents],
        by simp [writeLoop, hc, loopEvents]⟩
    · obtain ⟨matched, h1, h2, h3⟩ := ih (index + 1)
      refine ⟨matched, ?_, ?_, ?_⟩
      · simp [h1, hc]
      · simpa [writeLoop, hc] using h2
      · simpa [writeLoop, hc] using h3

theorem writeLoop_made {C B : Type} (env : Env C B) (m : Metric) (path : String) (block : B)
    (group : List C) (index : Nat) :
    ((∀ c ∈ group, env.Path c ≠ path) ∧ (writeLoop env path block index group).1 = group ∧
        loopEvents m (writeLoop env path block index group).2 =
          [Event.writeAttempted m false]) ∨
      ∃ (i : Nat) (c : C), group[i]? = some c ∧ env.Path c = path ∧
        (∀ (j : Nat) (d : C), j < i → group[j]? = some d → env.Path d ≠ path) ∧
        (writeLoop env path block index group).1 = group.set i (env.Append c block) ∧
        loopEvents m (writeLoop env path block index group).2 =
          [Event.saveCall m (index + i) (env.Append c block)
            (env.Save (env.Append c block)), Event.writeAttempted m true] := by
  induction group generalizing index with
  | nil => exact Or.inl ⟨by simp, rfl, rfl⟩
  | cons c rest ih =>
    by_cases hc : env.Path c = path
    · refine Or.inr ⟨0, c, by simp, hc, ?_, ?_, ?_⟩
      · intro j d hj
        omega
      · simp [writeLoop, hc]
      · simp [writeLoop, hc, loopEvents]
    · rcases ih (index + 1) with ⟨habs, hfst, hev⟩ | ⟨i, c', hget, hp, hbefore, hfst, hev⟩
      · refine Or.inl ⟨?_, ?_, ?_⟩
        · intro d hd
          rcases List.mem_cons.mp hd with rfl | hd
          · exact hc
          · exact habs d hd
        · simp [writeLoop, hc, hfst]
        · simpa [writeLoop, hc] using hev
      · refine Or.inr ⟨i + 1, c', by simpa using hget, hp, ?_, ?_, ?_⟩
        · intro j d hj hd
          cases j with
          | zero =>
            have : d = c := by simpa using hd.symm
            rw [this]
            exact hc
          | succ j => exact hbefore j d (by omega) (by simpa using hd)
        · simp [writeLoop, hc, hfst]
        · have e : index + 1 + i = index + (i + 1) := by omega
          rw [← e]
          simpa [writeLoop, hc] using hev

theorem writeLoop_WriteMade {C B : Type} (env : Env C B) (m : Metric) (path : String)
    (block : B) (group : List C) :
    WriteMade env m path block group (writeLoop env path block 0 group).1
      (loopEvents m (writeLoop env path block 0 group).2) := by
  have h := writeLoop_made env m path block group 0
  simpa [WriteMade] using h

theorem handle_ok {C B : Type} (env : Env C B) (blockDelay : B) (g0 g1 g2 : List C)
    (more : List (List C)) (route : Routes) (wg : Int) (r : Response) (tl : List Response)
    (hobs : (RouteDispatcher env.HandleGetRequest route).sent = r :: tl) (hwg : 0 < wg) :
    HandleResponseDelayForRoute env blockDelay (g0 :: g1 :: g2 :: more) route wg =
      Except.ok
        { responseChains :=
            (writeLoop env (pathDelay (env.RouteDestroyer route.URL)) blockDelay 0 g0).1 ::
            (writeLoop env (pathLength (env.RouteDestroyer route.URL))
              (env.lengthBlock r.ResLength) 0 g1).1 ::
            (writeLoop env (pathStatusCode (env.RouteDestroyer route.URL))
              (env.statusBlock r.ResStatusCode) 0 g2).1 :: more
          wg := wg - 1
          events :=
            [Event.received r] ++
            loopEvents Metric.delay
              (writeLoop env (pathDelay (env.RouteDestroyer route.URL)) blockDelay 0 g0).2 ++
            loopEvents Metric.length
              (writeLoop env (pathLength (env.RouteDestroyer route.URL))
                (env.lengthBlock r.ResLength) 0 g1).2 ++
            loopEvents Metric.status
              (writeLoop env (pathStatusCode (env.RouteDestroyer route.URL))
                (env.statusBlock r.ResStatusCode) 0 g2).2 ++
            [Event.wgDone] } := by
  have hd : wgDone wg = Except.ok (wg - 1) := by
    have : ¬ wg - 1 < 0 := by omega
    simp [wgDone, this]
  simp [HandleResponseDelayForRoute, hobs, hd]

/-! ## Storage paths -/

theorem storagePath_data (a : String) (m : Metric) :
    (storagePath a m).data =
      "storage/req-res-delay-monitoring/chunk_req_res_".data ++ (a.data ++ ('_' :: m.word.data ++ ".json".data)) := by
  cases m <;>
    simp [storagePath, pathDelay, pathLength, pathStatusCode, PathReqResDelay, Metric.word,
      String.data_append]

theorem storagePath_word_inj (a b : List Char) (m n : Metric)
    (h : a ++ ('_' :: m.word.data ++ ".json".data) = b ++ ('_' :: n.word.data ++ ".json".data)) :
    a = b ∧ m = n := by
  have hr := congrArg List.reverse h
  cases m <;> cases n <;>
    simp [Metric.word, List.reverse_append] at hr
  all_goals exact ⟨hr, rfl⟩

/-- C7. The storage paths of the handler have the form
`"storage/req-res-delay-monitoring/chunk_req_res_" + id + "_" + kind + ".json"` with kind one
of delay, length, status (they are the handler's `pathDelay`, `pathLength`,
`pathStatusCode`), and the construction is injective: the path for `(a, k1)` equals the path
for `(b, k2)` exactly when `a = b` and `k1 = k2`. The three paths of one route are pairwise
distinct. -/
theorem storagePath_injective (a b : String) (k1 k2 : Metric) :
    storagePath a k1 =
        "storage/req-res-delay-monitoring/chunk_req_res_" ++ a ++ "_" ++ k1.word ++ ".json" ∧
      (storagePath a Metric.delay = pathDelay a ∧ storagePath a Metric.length = pathLength a ∧
        storagePath a Metric.status = pathStatusCode a) ∧
      (storagePath a k1 = storagePath b k2 ↔ a = b ∧ k1 = k2) ∧
      (pathDelay a ≠ pathLength a ∧ pathDelay a ≠ pathStatusCode a ∧
        pathLength a ≠ pathStatusCode a) := by
  have inj : ∀ (x y : String) (m n : Metric), storagePath x m = storagePath y n → x = y ∧ m = n := by
    intro x y m n h
    have hd := congrArg String.data h
    rw [storagePath_data, storagePath_data] at hd
    have h2 := storagePath_word_inj x.data y.data m n (List.append_cancel_left hd)
    exact ⟨String.ext h2.1, h2.2⟩
  refine ⟨?_, ⟨rfl, rfl, rfl⟩, ⟨inj a b k1 k2, ?_⟩, ?_, ?_, ?_⟩
  · cases k1 <;>
      simp [storagePath, pathDelay, pathLength, pathStatusCode, PathReqResDelay, Metric.word,
        String.ext_iff, String.data_append]
  · rintro ⟨rfl, rfl⟩
    rfl
  · intro h
    exact absurd (inj a a Metric.delay Metric.length h).2 (by decide)
  · intro h
    exact absurd (inj a a Metric.delay Metric.status h).2 (by decide)
  · intro h
    exact absurd (inj a a Metric.length Metric.status h).2 (by decide)

/-! ## The dispatcher -/

/-- C2. For a route whose method is not exactly `"GET"`, `RouteDispatcher` sends exactly one
`Response`, with `Delay = 2147483647 = math.MaxInt32`, `ResLength = 0` and
`ResStatusCode = 100`, and makes no call of `HandleGetRequest`; this does not depend on the
URL nor on what `HandleGetRequest` would do. -/
theorem RouteDispatcher_not_get (HandleGetRequest : String → Option Response) (route : Routes)
    (h : route.Method ≠ "GET") :
    RouteDispatcher HandleGetRequest route =
        { sent := [{ Delay := 2147483647, ResLength := 0, ResStatusCode := 100 }],
          getCalls := [] } ∧
      (RouteDispatcher HandleGetRequest route).sent.length = 1 ∧
      MaxInt32 = 2147483647 := by
  have hm : MaxInt32 = 2147483647 := by decide
  simp [RouteDispatcher, h, hm]

/-- A POST route: the sentinel is sent and no request is made. -/
theorem RouteDispatcher_not_get_witness :
    (Routes.mk "POST" "http://localhost/a").Method ≠ "GET" ∧
      RouteDispatcher (fun _ => none) (Routes.mk "POST" "http://localhost/a") =
        { sent := [{ Delay := 2147483647, ResLength := 0, ResStatusCode := 100 }],
          getCalls := [] } :=
  ⟨by decide, (RouteDispatcher_not_get (fun _ => none) (Routes.mk "POST" "http://localhost/a")
    (by decide)).1⟩

/-! ## The collection cycle -/

theorem writeLoop_fst_save {C B : Type} (env : Env C B) (save : C → Bool) (path : String)
    (block : B) (group : List C) (index : Nat) :
    (writeLoop { env with Save := save } path block index group).1 =
      (writeLoop env path block index group).1 := by
  induction group generalizing index with
  | nil => rfl
  | cons c rest ih =>
    by_cases hc : env.Path c = path
    · simp [writeLoop, hc]
    · simp [writeLoop, hc, ih]

/-- C1. In a cycle that receives its observation `r`, each of the three groups is written
with its own path: when the chains of the delay, length and status groups have pairwise
distinct paths, the groups after the cycle are the groups before with exactly the chain
whose `Path` is `pathDelay`, `pathLength`, `pathStatusCode` replaced by `Append` of the
new block on it and every other chain as it was (`routed`); further groups are untouched,
and a group without a chain of that path is unchanged. The same holds for the write step
on any group with distinct paths, any target path and any block. -/
theorem HandleResponseDelayForRoute_routing {C B : Type} (env : Env C B) (blockDelay : B)
    (g0 g1 g2 : List C) (more : List (List C)) (route : Routes) (wg : Int) (r : Response)
    (tl : List Response)
    (hobs : (RouteDispatcher env.HandleGetRequest route).sent = r :: tl) (hwg : 0 < wg)
    (h0 : (g0.map env.Path).Nodup) (h1 : (g1.map env.Path).Nodup)
    (h2 : (g2.map env.Path).Nodup) :
    (∃ cyc, HandleResponseDelayForRoute env blockDelay (g0 :: g1 :: g2 :: more) route wg =
        Except.ok cyc ∧
      cyc.responseChains =
        routed env (pathDelay (env.RouteDestroyer route.URL)) blockDelay g0 ::
        routed env (pathLength (env.RouteDestroyer route.URL)) (env.lengthBlock r.ResLength) g1 ::
        routed env (pathStatusCode (env.RouteDestroyer route.URL))
          (env.statusBlock r.ResStatusCode) g2 :: more) ∧
    (∀ (path : String) (block : B) (group : List C) (index : Nat),
      (group.map env.Path).Nodup →
        (writeLoop env path block index group).1 =
            group.map (fun c => if env.Path c = path then env.Append c block else c) ∧
          ((∀ c ∈ group, env.Path c ≠ path) →
            (writeLoop env path block index group).1 = group)) := by
  refine ⟨⟨_, handle_ok env blockDelay g0 g1 g2 more route wg r tl hobs hwg, ?_⟩, ?_⟩
  · simp only [writeLoop_fst env _ _ _ _ h0, writeLoop_fst env _ _ _ _ h1,
      writeLoop_fst env _ _ _ _ h2]
  · intro path block group index hnd
    refine ⟨writeLoop_fst env path block group index hnd, fun habs => ?_⟩
    rw [writeLoop_fst env path block group index hnd]
    exact routed_of_absent env path block group habs

/-- C4. In a cycle that receives its observation, with the three groups present and a
positive counter at entry, the handler returns and the counter has gone down by exactly
one. The events of the cycle are: the observation received, the delay write attempt, the
length write attempt, the status write attempt, and then `Done`, which is the last event
and occurs once. Each attempt is made (`WriteMade`) whether or not its group has a chain
with the matching path: with a match the first such chain is replaced by `Append` of the
block on it and `Save` is called on the appended chain; without one the group is left as
it was. The groups the handler leaves behind are the groups after these three attempts, so
all three writes are made before the counter goes down. -/
theorem HandleResponseDelayForRoute_done_once {C B : Type} (env : Env C B) (blockDelay : B)
    (g0 g1 g2 : List C) (more : List (List C)) (route : Routes) (wg : Int) (r : Response)
    (tl : List Response)
    (hobs : (RouteDispatcher env.HandleGetRequest route).sent = r :: tl) (hwg : 0 < wg) :
    ∃ (cyc : Cycle C) (pre : List (Event C)) (a0 a1 a2 : List C) (e0 e1 e2 : List (Event C)),
      HandleResponseDelayForRoute env blockDelay (g0 :: g1 :: g2 :: more) route wg =
        Except.ok cyc ∧
      cyc.wg = wg - 1 ∧
      cyc.events = pre ++ [Event.wgDone] ∧
      Event.wgDone ∉ pre ∧
      pre = [Event.received r] ++ e0 ++ e1 ++ e2 ∧
      cyc.responseChains = a0 :: a1 :: a2 :: more ∧
      WriteMade env Metric.delay (pathDelay (env.RouteDestroyer route.URL)) blockDelay
        g0 a0 e0 ∧
      WriteMade env Metric.length (pathLength (env.RouteDestroyer route.URL))
        (env.lengthBlock r.ResLength) g1 a1 e1 ∧
      WriteMade env Metric.status (pathStatusCode (env.RouteDestroyer route.URL))
        (env.statusBlock r.ResStatusCode) g2 a2 e2 ∧
      (∃ matched : Bool,
        (matched = true ↔ ∃ c ∈ g0, env.Path c = pathDelay (env.RouteDestroyer route.URL)) ∧
        Event.writeAttempted Metric.delay matched ∈ pre) ∧
      (∃ matched : Bool,
        (matched = true ↔ ∃ c ∈ g1, env.Path c = pathLength (env.RouteDestroyer route.URL)) ∧
        Event.writeAttempted Metric.length matched ∈ pre) ∧
      (∃ matched : Bool,
        (matched = true ↔
          ∃ c ∈ g2, env.Path c = pathStatusCode (env.RouteDestroyer route.URL)) ∧
        Event.writeAttempted Metric.status matched ∈ pre) := by
  obtain ⟨m0, p0, b0, c0⟩ := writeLoop_snd env Metric.delay
    (pathDelay (env.RouteDestroyer route.URL)) blockDelay g0 0
  obtain ⟨m1, p1, b1, c1⟩ := writeLoop_snd env Metric.length
    (pathLength (env.RouteDestroyer route.URL)) (env.lengthBlock r.ResLength) g1 0
  obtain ⟨m2, p2, b2, c2⟩ := writeLoop_snd env Metric.status
    (pathStatusCode (env.RouteDestroyer route.URL)) (env.statusBlock r.ResStatusCode) g2 0
  refine ⟨_, _, _, _, _, _, _, _,
    handle_ok env blockDelay g0 g1 g2 more route wg r tl hobs hwg, rfl, rfl, ?_, rfl, rfl,
    writeLoop_WriteMade env Metric.delay _ blockDelay g0,
    writeLoop_WriteMade env Metric.length _ _ g1,
    writeLoop_WriteMade env Metric.status _ _ g2,
    ⟨m0, p0, ?_⟩, ⟨m1, p1, ?_⟩, ⟨m2, p2, ?_⟩⟩
  · simp only [List.mem_append, not_or]
    exact ⟨⟨⟨by simp, c0⟩, c1⟩, c2⟩
  · simp only [List.mem_append]
    exact Or.inl (Or.inl (Or.inr b0))
  · simp only [List.mem_append]
    exact Or.inl (Or.inr b1)
  · simp only [List.mem_append]
    exact Or.inr b2

/-- C5, as amended. The handler drops the status that `Save` returns: for every status
function `save`, what the caller has after the call (whether the handler came back, the
chain groups, the counter) is the same as with the environment's own `Save`. -/
theorem HandleResponseDelayForRoute_save_dropped {C B : Type} (env : Env C B)
    (save : C → Bool) (blockDelay : B) (responseChains : List (List C)) (route : Routes)
    (wg : Int) :
    callerView (HandleResponseDelayForRoute { env with Save := save } blockDelay
        responseChains route wg) =
      callerView (HandleResponseDelayForRoute env blockDelay responseChains route wg) := by
  simp only [HandleResponseDelayForRoute, writeLoop_fst_save]
  cases (RouteDispatcher env.HandleGetRequest route).sent with
  | nil => rfl
  | cons r tl =>
    simp only []
    cases responseChains[0]? with
    | none => rfl
    | some g0 =>
      simp only []
      split
      · rfl
      · split
        · rfl
        · cases wgDone wg <;> rfl

/-! ### Concrete runs -/

/-- In the demo environment a GET route delivers the observation 120 ms, 512 bytes, 200. -/
theorem demo_dispatch :
    (RouteDispatcher (demoEnv true).HandleGetRequest (Routes.mk "GET" "r")).sent =
      [{ Delay := 120, ResLength := 512, ResStatusCode := 200 }] := by
  decide

/-- The demo cycle: each block lands in the chain of route `r` of its group, and the chain
of route `q` keeps its one block. -/
theorem HandleResponseDelayForRoute_routing_witness :
    ((demoChains.map (List.map DemoChain.Path)).all fun ps => decide ps.Nodup) = true ∧
      ∃ cyc, HandleResponseDelayForRoute (demoEnv true) 120 demoChains (Routes.mk "GET" "r") 1 =
          Except.ok cyc ∧
        cyc.responseChains =
          [[{ Path := pathDelay "q", blocks := [7] }, { Path := pathDelay "r", blocks := [120] }],
           [{ Path := pathLength "r", blocks := [512] }],
           [{ Path := pathStatusCode "r", blocks := [200] }]] := by
  refine ⟨by decide, ?_⟩
  obtain ⟨cyc, hc, hr⟩ :=
    (HandleResponseDelayForRoute_routing (demoEnv true) 120
      [{ Path := pathDelay "q", blocks := [7] }, { Path := pathDelay "r", blocks := [] }]
      [{ Path := pathLength "r", blocks := [] }] [{ Path := pathStatusCode "r", blocks := [] }]
      [] (Routes.mk "GET" "r") 1 { Delay := 120, ResLength := 512, ResStatusCode := 200 } []
      demo_dispatch (by decide) (by decide) (by decide) (by decide)).1
  refine ⟨cyc, hc, ?_⟩
  rw [hr]
  decide

/-- The demo cycle entered with counter 3: the three appended chains are saved in the
order delay, length, status, then `Done` comes last; the groups hold the appended chains
and the counter is 2. -/
theorem HandleResponseDelayForRoute_done_once_witness :
    ∃ cyc, HandleResponseDelayForRoute (demoEnv true) 120 demoChains (Routes.mk "GET" "r") 3 =
        Except.ok cyc ∧
      cyc.wg = 2 ∧
      cyc.events =
        [Event.received { Delay := 120, ResLength := 512, ResStatusCode := 200 },
         Event.saveCall Metric.delay 1 { Path := pathDelay "r", blocks := [120] } true,
         Event.writeAttempted Metric.delay true,
         Event.saveCall Metric.length 0 { Path := pathLength "r", blocks := [512] } true,
         Event.writeAttempted Metric.length true,
         Event.saveCall Metric.status 0 { Path := pathStatusCode "r", blocks := [200] } true,
         Event.writeAttempted Metric.status true,
         Event.wgDone] ∧
      cyc.responseChains =
        [[{ Path := pathDelay "q", blocks := [7] }, { Path := pathDelay "r", blocks := [120] }],
         [{ Path := pathLength "r", blocks := [512] }],
         [{ Path := pathStatusCode "r", blocks := [200] }]] := by
  obtain ⟨cyc, pre, a0, a1, a2, e0, e1, e2, hc, hw, _⟩ :=
    HandleResponseDelayForRoute_done_once (demoEnv true) 120
      [{ Path := pathDelay "q", blocks := [7] }, { Path := pathDelay "r", blocks := [] }]
      [{ Path := pathLength "r", blocks := [] }] [{ Path := pathStatusCode "r", blocks := [] }]
      [] (Routes.mk "GET" "r") 3 { Delay := 120, ResLength := 512, ResStatusCode := 200 } []
      demo_dispatch (by decide)
  have hrun : HandleResponseDelayForRoute (demoEnv true) 120 demoChains (Routes.mk "GET" "r") 3 =
      Except.ok
        { responseChains :=
            [[{ Path := pathDelay "q", blocks := [7] },
              { Path := pathDelay "r", blocks := [120] }],
             [{ Path := pathLength "r", blocks := [512] }],
             [{ Path := pathStatusCode "r", blocks := [200] }]]
          wg := 2
          events :=
            [Event.received { Delay := 120, ResLength := 512, ResStatusCode := 200 },
             Event.saveCall Metric.delay 1 { Path := pathDelay "r", blocks := [120] } true,
             Event.writeAttempted Metric.delay true,
             Event.saveCall Metric.length 0 { Path := pathLength "r", blocks := [512] } true,
             Event.writeAttempted Metric.length true,
             Event.saveCall Metric.status 0 { Path := pathStatusCode "r", blocks := [200] } true,
             Event.writeAttempted Metric.status true,
             Event.wgDone] } := rfl
  have hcyc := Except.ok.inj (hc.symm.trans hrun)
  refine ⟨cyc, hc, ?_, ?_, ?_⟩
  · rw [hw]
    decide
  · rw [hcyc]
  · rw [hcyc]

/-- C5, as stated, fails. In the demo registry a cycle whose every `Save` fails and the
same cycle whose every `Save` succeeds leave the caller with the same view, although the
delay chain of the route was saved in both, with status `false` in the first and `true`
in the second. -/
theorem save_failure_not_seen :
    (∃ cyc, HandleResponseDelayForRoute (demoEnv false) 120 demoChains (Routes.mk "GET" "r") 1 =
        Except.ok cyc ∧
      Event.saveCall Metric.delay 1 { Path := pathDelay "r", blocks := [120] } false ∈ cyc.events) ∧
    (∃ cyc, HandleResponseDelayForRoute (demoEnv true) 120 demoChains (Routes.mk "GET" "r") 1 =
        Except.ok cyc ∧
      Event.saveCall Metric.delay 1 { Path := pathDelay "r", blocks := [120] } true ∈ cyc.events) ∧
    callerView (HandleResponseDelayForRoute (demoEnv false) 120 demoChains (Routes.mk "GET" "r") 1) =
      callerView (HandleResponseDelayForRoute (demoEnv true) 120 demoChains (Routes.mk "GET" "r") 1) := by
  refine ⟨⟨_, rfl, by decide⟩, ⟨_, rfl, by decide⟩, rfl⟩

/-! ## The block payload -/

/-- C3, evaluated. For delay 120, length 512 and status 200 the payload of
`getNormalizedBlockString` is the three characters with these code points, `x`, `Ȁ` and
`È`, joined by the separator; it is not the decimal text `"120"`, `"512"`, `"200"` joined by
the separator, whatever the separator is. -/
theorem getNormalizedBlockString_code_points (sep : String) :
    getNormalizedBlockString sep { Delay := 120, ResLength := 512, ResStatusCode := 200 } =
        "x" ++ sep ++ "Ȁ" ++ sep ++ "È" ∧
      getNormalizedBlockString sep { Delay := 120, ResLength := 512, ResStatusCode := 200 } ≠
        "120" ++ sep ++ "512" ++ sep ++ "200" := by
  have e1 : goStringOfInt 120 = "x" := by decide
  have e2 : goStringOfInt 512 = "Ȁ" := by decide
  have e3 : goStringOfInt 200 = "È" := by decide
  constructor
  · simp [getNormalizedBlockString, e1, e2, e3]
  · intro h
    have hd := congrArg String.data h
    simp [getNormalizedBlockString, e1, e2, e3, String.data_append] at hd

end response

namespace system

/-! ## The samplers -/

theorem wrapInt64_of_range (x : Int) (h1 : -2 ^ 63 ≤ x) (h2 : x < 2 ^ 63) : wrapInt64 x = x := by
  unfold wrapInt64
  omega

theorem tdiv_of_le (b n : Nat) (h : b ≤ n) :
    Int.tdiv ((n : Int) - b) 1000 = (((n - b) / 1000 : Nat) : Int) := by
  rw [Int.ofNat_tdiv, Nat.cast_sub h]
  rfl

theorem tdiv_of_ge (b n : Nat) (h : n ≤ b) :
    Int.tdiv ((n : Int) - b) 1000 = -(((b - n) / 1000 : Nat) : Int) := by
  have e : ((n : Int) - b) = -(((b - n : Nat)) : Int) := by
    rw [Nat.cast_sub h]
    ring
  rw [e, Int.neg_tdiv, Int.ofNat_tdiv]
  rfl

/-- C6. For two successful disk snapshots whose used-byte counts are below `2^63`,
`GetDiskIOStats` delivers `DiskIO = (now.Used - before.Used) / 1000` with the quotient
truncated toward zero: the whole kilobytes of the growth when usage grew, minus the whole
kilobytes of the shrinkage when it shrank, so it is at most zero when usage shrinks. -/
theorem GetDiskIOStats_delta {E : Type} (before now : OsStats)
    (hb : before.Used < 2 ^ 63) (hn : now.Used < 2 ^ 63) :
    ∃ d : DiskStats,
      GetDiskIOStats (Except.ok before : Except E OsStats) (Except.ok now) = Except.ok d ∧
      d.DiskIO = Int.tdiv ((now.Used : Int) - (before.Used : Int)) 1000 ∧
      (before.Used ≤ now.Used →
        d.DiskIO = (((now.Used - before.Used) / 1000 : Nat) : Int)) ∧
      (now.Used ≤ before.Used →
        d.DiskIO = -(((before.Used - now.Used) / 1000 : Nat) : Int) ∧ d.DiskIO ≤ 0) := by
  have hb' : ((before.Used : Nat) : Int) < 2 ^ 63 := by exact_mod_cast hb
  have hn' : ((now.Used : Nat) : Int) < 2 ^ 63 := by exact_mod_cast hn
  have wb : wrapInt64 (before.Used : Int) = before.Used :=
    wrapInt64_of_range _ (by omega) hb'
  have wn : wrapInt64 (now.Used : Int) = now.Used := wrapInt64_of_range _ (by omega) hn'
  have wd : wrapInt64 ((now.Used : Int) - before.Used) = (now.Used : Int) - before.Used :=
    wrapInt64_of_range _ (by omega) (by omega)
  refine ⟨_, rfl, ?_, ?_, ?_⟩
  · simp only [wb, wn, wd]
  · intro h
    simp only [wb, wn, wd]
    exact tdiv_of_le _ _ h
  · intro h
    simp only [wb, wn, wd]
    rw [tdiv_of_ge _ _ h]
    exact ⟨rfl, by omega⟩

/-- Used bytes going from 1,000,000 to 1,300,000 give `DiskIO = 300`. -/
theorem GetDiskIOStats_delta_witness :
    (1000000 : Nat) < 2 ^ 63 ∧ (1300000 : Nat) < 2 ^ 63 ∧
      ∃ d : DiskStats,
        GetDiskIOStats (Except.ok { Used := 1000000, Cached := 0 } : Except String OsStats)
          (Except.ok { Used := 1300000, Cached := 0 }) = Except.ok d ∧ d.DiskIO = 300 := by
  refine ⟨by decide, by decide, ?_⟩
  obtain ⟨d, hd, he, _⟩ :=
    GetDiskIOStats_delta (E := String) { Used := 1000000, Cached := 0 }
      { Used := 1300000, Cached := 0 } (by decide) (by decide)
  refine ⟨d, hd, ?_⟩
  rw [he]
  decide

/-- C9. For every virtual-memory snapshot that was read, `GetVirtualMemoryStats` delivers
`Total`, `Available`, `Used` and `Free` as the byte counts divided by 1,000,000 with the
remainder dropped (`value * 1000000 ≤ bytes < (value + 1) * 1000000`), and `UsedPercent` as
it was read. -/
theorem GetVirtualMemoryStats_megabytes {F E : Type} (stats : VirtualMemoryStat F) :
    ∃ m : MemoryStats F,
      GetVirtualMemoryStats (Except.ok stats : Except E (VirtualMemoryStat F)) = Except.ok m ∧
      (m.Total = stats.Total / 1000000 ∧ m.Total * 1000000 ≤ stats.Total ∧
        stats.Total < (m.Total + 1) * 1000000) ∧
      (m.Available = stats.Available / 1000000 ∧ m.Available * 1000000 ≤ stats.Available ∧
        stats.Available < (m.Available + 1) * 1000000) ∧
      (m.Used = stats.Used / 1000000 ∧ m.Used * 1000000 ≤ stats.Used ∧
        stats.Used < (m.Used + 1) * 1000000) ∧
      (m.Free = stats.Free / 1000000 ∧ m.Free * 1000000 ≤ stats.Free ∧
        stats.Free < (m.Free + 1) * 1000000) ∧
      m.UsedPercent = stats.UsedPercent := by
  refine ⟨_, rfl, ⟨rfl, ?_, ?_⟩, ⟨rfl, ?_, ?_⟩, ⟨rfl, ?_, ?_⟩, ⟨rfl, ?_, ?_⟩, rfl⟩ <;>
    simp only <;> omega

/-! ## Encode: which blocks are accepted -/

/-- C10. `Encode` returns a string block unchanged; on a block that is not a `DiskStats`, a
`MemoryStats` or a string it panics with the message `Invalid block type: ...` and returns
no payload; it returns a payload exactly on the three supported kinds; and whenever
control falls out of the type switch, the statements after it panic, so the final
`return data` is never reached. -/
theorem Encode_supported_kinds {F : Type} (fmtF : F → String) (fmtV : Block F → String) :
    (∀ s : String, Encode fmtF fmtV (Block.string s) = Except.ok s) ∧
    (∀ tag : String, Encode fmtF fmtV (Block.other tag) =
      Except.error ("Invalid block type: " ++ fmtV (Block.other tag))) ∧
    (∀ block : Block F, (∃ s, Encode fmtF fmtV block = Except.ok s) ↔
      ((∃ d, block = Block.diskStats d) ∨ (∃ m, block = Block.memoryStats m) ∨
        ∃ s, block = Block.string s)) ∧
    (∀ block : Block F, encodeSwitch fmtF block = none →
      encodeFallback fmtV block = Except.error ("Invalid block type: " ++ fmtV block) ∧
        Encode fmtF fmtV block = Except.error ("Invalid block type: " ++ fmtV block)) := by
  refine ⟨fun _ => rfl, fun _ => rfl, ?_, ?_⟩
  · intro block
    cases block <;> simp [Encode, encodeSwitch, encodeFallback, assertString]
  · intro block h
    cases block <;> simp [Encode, encodeSwitch, encodeFallback, assertString] at h ⊢

/-- A channel value falls out of the switch and panics; a CPU usage string is returned. -/
theorem Encode_supported_kinds_witness :
    encodeSwitch (fun _ : Unit => "0.000000") (Block.other "chan int") = none ∧
      Encode (fun _ : Unit => "0.000000") (fun _ => "0xc000012345") (Block.other "chan int") =
        Except.error "Invalid block type: 0xc000012345" ∧
      Encode (fun _ : Unit => "0.000000") (fun _ => "0xc000012345") (Block.string "12.50") =
        Except.ok "12.50" := by
  have h := Encode_supported_kinds (fun _ : Unit => "0.000000") (fun _ => "0xc000012345")
  exact ⟨rfl, (h.2.2.2 (Block.other "chan int") rfl).2, h.1 "12.50"⟩

/-! ## Encode: the payload of disk and memory blocks -/

theorem digitValue_digitChar (d : Nat) (h : d < 10) : digitValue (Nat.digitChar d) = some d := by
  interval_cases d <;> rfl

theorem digitChar_ne (d : Nat) (h : d < 10) :
    Nat.digitChar d ≠ '|' ∧ Nat.digitChar d ≠ '-' := by
  interval_cases d <;> decide

theorem readDigits_toDigitsCore (fuel : Nat) :
    ∀ (n : Nat) (ds : List Char), n < fuel →
      readDigits 0 (Nat.toDigitsCore 10 fuel n ds) = readDigits n ds := by
  induction fuel with
  | zero => intro n ds h; omega
  | succ fuel ih =>
    intro n ds h
    have hd := digitValue_digitChar (n % 10) (Nat.mod_lt n (by decide))
    by_cases h0 : n / 10 = 0
    · have e : n % 10 = n := by omega
      rw [e] at hd
      simp [Nat.toDigitsCore, h0, readDigits, hd, e]
    · have hlt : n / 10 < fuel := by omega
      have e : n / 10 * 10 + n % 10 = n := by omega
      simp [Nat.toDigitsCore, h0, ih (n / 10) _ hlt, readDigits, hd, e]

theorem toDigitsCore_ne_nil (fuel : Nat) :
    ∀ (n : Nat) (ds : List Char), 0 < fuel → Nat.toDigitsCore 10 fuel n ds ≠ [] := by
  induction fuel with
  | zero => intro n ds h; omega
  | succ fuel ih =>
    intro n ds _
    by_cases h0 : n / 10 = 0
    · simp [Nat.toDigitsCore, h0]
    · cases fuel with
      | zero => simp [Nat.toDigitsCore, h0]
      | succ f => simpa [Nat.toDigitsCore, h0] using ih (n / 10) _ (Nat.succ_pos f)

theorem toDigitsCore_mem (fuel : Nat) :
    ∀ (n : Nat) (ds : List Char) (c : Char), c ∈ Nat.toDigitsCore 10 fuel n ds →
      c ∈ ds ∨ (c ≠ '|' ∧ c ≠ '-') := by
  induction fuel with
  | zero => intro n ds c h; exact Or.inl (by simpa [Nat.toDigitsCore] using h)
  | succ fuel ih =>
    intro n ds c h
    have hd := digitChar_ne (n % 10) (Nat.mod_lt n (by decide))
    by_cases h0 : n / 10 = 0
    · simp [Nat.toDigitsCore, h0] at h
      rcases h with h | h
      · exact Or.inr (h ▸ hd)
      · exact Or.inl h
    · simp [Nat.toDigitsCore, h0] at h
      rcases ih _ _ _ h with h | h
      · rcases List.mem_cons.mp h with h | h
        · exact Or.inr (h ▸ hd)
        · exact Or.inl h
      · exact Or.inr h

theorem repr_data (n : Nat) : (Nat.repr n).data = Nat.toDigitsCore 10 (n + 1) n [] := rfl

theorem repr_mem (n : Nat) (c : Char) (h : c ∈ (Nat.repr n).data) : c ≠ '|' ∧ c ≠ '-' := by
  rw [repr_data] at h
  rcases toDigitsCore_mem _ _ _ _ h with h | h
  · simp at h
  · exact h

theorem readNat_repr (n : Nat) : readNat (Nat.repr n).data = some n := by
  rw [repr_data, readNat, if_neg (toDigitsCore_ne_nil _ _ _ (Nat.succ_pos n)),
    readDigits_toDigitsCore _ _ _ (Nat.lt_succ_self n)]
  rfl

theorem readInt_repr (n : Nat) : readInt (Nat.repr n).data = some (n : Int) := by
  have hr := readNat_repr n
  cases hcs : (Nat.repr n).data with
  | nil => simp [hcs, readNat] at hr
  | cons c rest =>
    have hc : c ≠ '-' := (repr_mem n c (by simp [hcs])).2
    rw [hcs] at hr
    simp [readInt, hc, hr]

theorem fmtD_data (i : Int) :
    (fmtD i).data = if i < 0 then '-' :: (Nat.repr i.natAbs).data else (Nat.repr i.natAbs).data := by
  unfold fmtD
  split <;> simp [String.data_append]

theorem fmtD_no_separator (i : Int) : '|' ∉ (fmtD i).data := by
  intro h
  rw [fmtD_data] at h
  split at h
  · rcases List.mem_cons.mp h with h | h
    · exact absurd h (by decide)
    · exact (repr_mem _ _ h).1 rfl
  · exact (repr_mem _ _ h).1 rfl

theorem readInt_fmtD (i : Int) : readInt (fmtD i).data = some i := by
  rw [fmtD_data]
  split
  · have e : -((i.natAbs : Nat) : Int) = i := by omega
    have hm : readInt ('-' :: (Nat.repr i.natAbs).data) =
        (readNat (Nat.repr i.natAbs).data).map fun (n : Nat) => -(n : Int) := rfl
    rw [hm, readNat_repr, Option.map_some', e]
  · have e : ((i.natAbs : Nat) : Int) = i := by omega
    rw [readInt_repr, e]

theorem splitOn_two (a b : List Char) (ha : '|' ∉ a) (hb : '|' ∉ b) :
    List.splitOn '|' (a ++ '|' :: b) = [a, b] := by
  have h := List.splitOn_intercalate [a, b] '|' (by simp [ha, hb]) (by simp)
  simpa [List.intercalate] using h

theorem splitOn_five (a b c d e : List Char) (ha : '|' ∉ a) (hb : '|' ∉ b) (hc : '|' ∉ c)
    (hd : '|' ∉ d) (he : '|' ∉ e) :
    List.splitOn '|' (a ++ '|' :: (b ++ '|' :: (c ++ '|' :: (d ++ '|' :: e)))) =
      [a, b, c, d, e] := by
  have h := List.splitOn_intercalate [a, b, c, d, e] '|' (by simp [ha, hb, hc, hd, he]) (by simp)
  simpa [List.intercalate] using h

/-- C8. `Encode` writes the fields in a fixed order joined by the single separator `|`.
For every `DiskStats` the payload is the decimal `DiskIO`, then `|`, then the decimal
`Cached`: it holds exactly one separator, and splitting on it and reading the two
integers gives back `DiskIO` and `Cached`, negative values included. For every
`MemoryStats` the payload is total, available, used, usedPercent, free in this order with
the four integers in decimal (each reads back as the field's value), and it splits into
exactly these five fields, the `%f` text of a `float64` holding no `|`. -/
theorem Encode_field_order {F : Type} (fmtF : F → String) (fmtV : Block F → String) :
    (∀ d : DiskStats, ∃ s : String,
      Encode fmtF fmtV (Block.diskStats d) = Except.ok s ∧
      s = fmtD d.DiskIO ++ "|" ++ fmtD d.Cached ∧
      s.data.count '|' = 1 ∧
      fields s = [(fmtD d.DiskIO).data, (fmtD d.Cached).data] ∧
      (fields s).map readInt = [some d.DiskIO, some d.Cached]) ∧
    (∀ m : MemoryStats F, ∃ s : String,
      Encode fmtF fmtV (Block.memoryStats m) = Except.ok s ∧
      s = fmtD m.Total ++ "|" ++ fmtD m.Available ++ "|" ++ fmtD m.Used ++ "|" ++
        fmtF m.UsedPercent ++ "|" ++ fmtD m.Free ∧
      readInt (fmtD m.Total).data = some (m.Total : Int) ∧
      readInt (fmtD m.Available).data = some (m.Available : Int) ∧
      readInt (fmtD m.Used).data = some (m.Used : Int) ∧
      readInt (fmtD m.Free).data = some (m.Free : Int) ∧
      ('|' ∉ (fmtF m.UsedPercent).data →
        fields s = [(fmtD m.Total).data, (fmtD m.Available).data, (fmtD m.Used).data,
          (fmtF m.UsedPercent).data, (fmtD m.Free).data])) := by
  constructor
  · intro d
    have hs : (fmtD d.DiskIO ++ "|" ++ fmtD d.Cached).data =
        (fmtD d.DiskIO).data ++ '|' :: (fmtD d.Cached).data := by
      simp [String.data_append]
    have hf : fields (fmtD d.DiskIO ++ "|" ++ fmtD d.Cached) =
        [(fmtD d.DiskIO).data, (fmtD d.Cached).data] := by
      rw [fields, hs]
      exact splitOn_two _ _ (fmtD_no_separator _) (fmtD_no_separator _)
    refine ⟨_, rfl, rfl, ?_, hf, ?_⟩
    · rw [hs, List.count_append, List.count_cons_self,
        List.count_eq_zero_of_not_mem (fmtD_no_separator d.DiskIO),
        List.count_eq_zero_of_not_mem (fmtD_no_separator d.Cached)]
    · rw [hf]
      simp [readInt_fmtD]
  · intro m
    refine ⟨_, rfl, rfl, readInt_fmtD _, readInt_fmtD _, readInt_fmtD _, readInt_fmtD _, ?_⟩
    intro hp
    have hs : (fmtD m.Total ++ "|" ++ fmtD m.Available ++ "|" ++ fmtD m.Used ++ "|" ++
        fmtF m.UsedPercent ++ "|" ++ fmtD m.Free).data =
        (fmtD m.Total).data ++ '|' :: ((fmtD m.Available).data ++ '|' ::
          ((fmtD m.Used).data ++ '|' :: ((fmtF m.UsedPercent).data ++ '|' ::
            (fmtD m.Free).data))) := by
      simp [String.data_append]
    rw [fields, hs]
    exact splitOn_five _ _ _ _ _ (fmtD_no_separator _) (fmtD_no_separator _)
      (fmtD_no_separator _) hp (fmtD_no_separator _)

/-- A shrinking disk and a memory snapshot, encoded and split. -/
theorem Encode_field_order_witness :
    Encode (fun _ : Unit => "45.250000") (fun _ => "") (Block.diskStats ⟨-300, 12⟩) =
        Except.ok "-300|12" ∧
      fields "-300|12" = ["-300".data, "12".data] ∧
      Encode (fun _ : Unit => "45.250000") (fun _ => "")
          (Block.memoryStats ⟨16000, 8000, 7000, (), 1000⟩) =
        Except.ok "16000|8000|7000|45.250000|1000" ∧
      fields "16000|8000|7000|45.250000|1000" =
        ["16000".data, "8000".data, "7000".data, "45.250000".data, "1000".data] := by
  have h := Encode_field_order (fun _ : Unit => "45.250000") (fun _ => "")
  obtain ⟨s, h1, h2, _, h3, _⟩ := h.1 ⟨-300, 12⟩
  obtain ⟨t, k1, k2, _, _, _, _, k3⟩ := h.2 ⟨16000, 8000, 7000, (), 1000⟩
  have es : s = "-300|12" := by rw [h2]; decide
  have et : t = "16000|8000|7000|45.250000|1000" := by rw [k2]; decide
  have k4 := k3 (by decide)
  rw [es] at h1 h3
  rw [et] at k1 k4
  exact ⟨h1, h3, k1, k4⟩

end system

end Bench
